import Mathlib

/-!
# Npackd: install planning, version order and the `nd` command-line front end

A shallow embedding of

* `src/nd/ndapp.cpp` (`App::reinstallTestPackage`, `App::unitTests`,
  `App::process`, `App::findUpdates`, `packageVersionLessThan`), translated
  from the C++ source, and
* the parts of the package catalogue that `ndapp.cpp` calls but whose bodies
  are not among the sources (`Version::compare`, `Dependency`,
  `PackageVersion::planInstallation`); these follow the written specification
  and every such definition says so in its doc comment.

Conventions.  `QString` is `String`; the empty string is "no error".  Calls
into Qt, the registry, the file system and the job machinery are represented
by the values they return, collected in an environment record.  A null pointer
dereference is the result `none`.  Console output is not part of the model.
-/

set_option autoImplicit false

namespace Npackd

/-! ## Version -/

/-- Modelled from the spec: the class `Version` (its header `version.h` is not
among the sources).  "An ordered sequence of non-negative integer components
(arbitrary length, e.g. 1.2.0)". -/
structure Version where
  parts : List Nat
  deriving DecidableEq

/-- Modelled from the spec: comparison of the components still present in one
version with the missing components of the other one; "a missing trailing
component is treated as 0".  The result is the sign seen from the side of the
shorter version: `-1` if some remaining component is positive, else `0`. -/
def compareMissing : List Nat → Int
  | [] => 0
  | b :: bs => if 0 < b then -1 else compareMissing bs

/-- Modelled from the spec: `Version::compare` on the component lists.
"Comparison is component-wise left-to-right; a missing trailing component is
treated as 0".  The result is `-1`, `0` or `1`. -/
def compareParts : List Nat → List Nat → Int
  | [], bs => compareMissing bs
  | a :: as, [] => if 0 < a then 1 else compareParts as []
  | a :: as, b :: bs =>
    if a < b then -1 else if b < a then 1 else compareParts as bs

/-- Modelled from the spec: `Version::compare` (§4.1, `compare(a,b) -> {-1,0,1}`). -/
def Version.compare (a b : Version) : Int := compareParts a.parts b.parts

/-- Modelled from the spec: removal of trailing zero components
(`Version::normalize`; "Versions are normalized on construction",
"All version numbers should be normalized"). -/
def stripTrailingZeros : List Nat → List Nat
  | [] => []
  | a :: as =>
    match stripTrailingZeros as with
    | [] => if a = 0 then [] else [a]
    | b :: bs => a :: b :: bs

/-- Modelled from the spec: `Version::normalize`. -/
def Version.normalize (v : Version) : Version := ⟨stripTrailingZeros v.parts⟩

/-- A version is normalised when normalisation leaves it unchanged, that is
when it has no trailing zero component. -/
def Version.isNormalized (v : Version) : Prop := v.normalize = v

instance (v : Version) : Decidable v.isNormalized := by
  unfold Version.isNormalized; infer_instance

/-! ## Dependency, PackageVersion, Repository -/

/-- Modelled from the spec: the class `Dependency` (`dependency.h` is not among
the sources).  "A package identifier plus an inclusive version range":
`{ packageId, min, max, minInclusive, maxInclusive }`. -/
structure Dependency where
  packageId : String
  min : Version
  max : Version
  minInclusive : Bool
  maxInclusive : Bool
  deriving DecidableEq

/-- Modelled from the spec: `Dependency.matches(version)`; the version "falls
within the (possibly half/fully-open) range". -/
def Dependency.matches (d : Dependency) (v : Version) : Bool :=
  (if d.minInclusive then decide (d.min.compare v ≤ 0) else decide (d.min.compare v < 0)) &&
  (if d.maxInclusive then decide (v.compare d.max ≤ 0) else decide (v.compare d.max < 0))

/-- Modelled from the spec: the class `Package` (`package.h` is not among the
sources); identity is `id`. -/
structure Package where
  id : String
  title : String
  description : String
  url : String
  iconUrl : String
  category : String
  deriving DecidableEq

/-- Modelled from the spec: the class `PackageVersion` (`packageversion.h` is
not among the sources).  The detection rule, which only the external
detection uses, is left out. -/
structure PackageVersion where
  packageId : String
  version : Version
  dependencies : List Dependency
  installPath : Option String
  external : Bool
  locked : Bool
  deriving DecidableEq

/-- Modelled from the spec: `installed() == installPath.isSet()`. -/
def PackageVersion.installed (pv : PackageVersion) : Bool := pv.installPath.isSome

/-- Modelled from the spec: "a PackageVersion v satisfies a Dependency iff
v.version falls within the range and v.packageId == dependency.packageId". -/
def PackageVersion.satisfies (pv : PackageVersion) (d : Dependency) : Bool :=
  pv.packageId == d.packageId && d.matches pv.version

/-- Modelled from the spec: identity of a package version is
`(packageId, version)`. -/
def PackageVersion.sameIdentity (a b : PackageVersion) : Bool :=
  a.packageId == b.packageId && a.version == b.version

/-- Kind of an `InstallOperation`. -/
inductive OperationKind where
  | install
  | uninstall
  deriving DecidableEq

/-- Modelled from the spec: `InstallOperation`,
`{ target: PackageVersion reference, kind: Install | Uninstall }`. -/
structure InstallOperation where
  target : PackageVersion
  kind : OperationKind
  deriving DecidableEq

/-- The class `Repository` of `src/wpmcpp/repository.h`, reduced to the two
lists the planner reads: `packages` and `packageVersions`. -/
structure Repository where
  packages : List Package
  packageVersions : List PackageVersion
  deriving DecidableEq

/-- The installed package versions of a repository
(`Repository::getInstalled`, by `installed()`). -/
def Repository.getInstalled (r : Repository) : List PackageVersion :=
  r.packageVersions.filter PackageVersion.installed

/-- Keeps the newer of the best candidate so far and the next candidate. -/
def newerOf (best : Option PackageVersion) (pv : PackageVersion) : Option PackageVersion :=
  match best with
  | none => some pv
  | some b => if b.version.compare pv.version < 0 then some pv else some b

/-- Modelled from the spec: "select the newest PackageVersion of d.packageId in
the Repository that satisfies d"; `none` if there is none. -/
def Repository.findBestMatch (r : Repository) (d : Dependency) : Option PackageVersion :=
  (r.packageVersions.filter (fun pv => pv.satisfies d)).foldl newerOf none

/-! ## Install planner -/

/-- Modelled from the spec: the error taxonomy of the planner (§4.2). -/
inductive PlanError where
  | unresolvedDependency (d : Dependency)
  | avoidedPackage (packageId : String)
  | selfDependency (packageId : String)
  | dependentPackagesLocked (packageId : String)
  | invalidArgument
  deriving DecidableEq

/-- Modelled from the spec: errors are "string-valued", "a non-empty
human-readable error string".  Only the text of the self-dependency error is
given by the spec; the other texts are the names of the taxonomy. -/
def PlanError.message : PlanError → String
  | .unresolvedDependency _ => "UnresolvedDependencyError"
  | .avoidedPackage _ => "AvoidedPackageError"
  | .selfDependency _ => "packages cannot depend on themselves"
  | .dependentPackagesLocked _ => "DependentPackagesLockedError"
  | .invalidArgument => "InvalidArgumentError"

/-- Outcome of a planning walk ("an ordered operation list or failing with a
descriptive error"); `cutOff` is the walk stopped by its depth bound, which
`planInstallation` never produces. -/
inductive PlanOutcome where
  | cutOff
  | failed (e : PlanError)
  | planned (ops : List InstallOperation)
  deriving DecidableEq

/-- Error string of an outcome in the convention of the C++ interface
("a result plus empty error, or a non-empty human-readable error string"). -/
def PlanOutcome.errorString : PlanOutcome → String
  | .cutOff => ""
  | .failed e => e.message
  | .planned _ => ""

/-- Modelled from the spec: a dependency needs no operation "if some member of
installed (or already scheduled for install earlier in this same plan)
satisfies d". -/
def satisfiedBy (installed : List PackageVersion) (ops : List InstallOperation)
    (d : Dependency) : Bool :=
  installed.any (fun pv => pv.satisfies d) || ops.any (fun op => op.target.satisfies d)

/-- Modelled from the spec: the loop over the dependencies of one node of the
depth-first walk of `planInstallation`, in declaration order.  `planNode` is
the walk of a selected package version; `inProgress` holds the package
identifiers on the current path. -/
def planDependencies (r : Repository) (installed : List PackageVersion)
    (avoid : List Package)
    (planNode : PackageVersion → List String → List InstallOperation → PlanOutcome) :
    List Dependency → List String → List InstallOperation → PlanOutcome
  | [], _, ops => .planned ops
  | d :: ds, inProgress, ops =>
    if satisfiedBy installed ops d then
      planDependencies r installed avoid planNode ds inProgress ops
    else
      match r.findBestMatch d with
      | none => .failed (.unresolvedDependency d)
      | some pv =>
        if avoid.any (fun p => p.id == pv.packageId) then
          .failed (.avoidedPackage pv.packageId)
        else if pv.packageId ∈ inProgress then
          .failed (.selfDependency pv.packageId)
        else
          match planNode pv inProgress ops with
          | PlanOutcome.planned ops' =>
            planDependencies r installed avoid planNode ds inProgress ops'
          | other => other

/-- Modelled from the spec: one node of the depth-first walk of
`planInstallation`.  The node is omitted only when "it is already installed
and satisfies itself (no-op plan)"; otherwise its unmet dependencies are
planned first and its own `Install` operation is emitted after them
(post-order).  The first argument bounds the depth of the walk. -/
def planNode (r : Repository) (installed : List PackageVersion) (avoid : List Package) :
    Nat → PackageVersion → List String → List InstallOperation → PlanOutcome
  | 0, _, _, _ => .cutOff
  | fuel + 1, node, inProgress, ops =>
    if installed.any (fun pv => pv.sameIdentity node) &&
        node.dependencies.all (satisfiedBy installed ops) then
      .planned ops
    else
      match planDependencies r installed avoid (planNode r installed avoid fuel)
          node.dependencies (node.packageId :: inProgress) ops with
      | PlanOutcome.planned ops' => .planned (ops' ++ [⟨node, .install⟩])
      | other => other

/-- Result of a planner entry point: the repository after the call and the
outcome of the walk. -/
structure PlanResult where
  repository : Repository
  outcome : PlanOutcome

/-- Modelled from the spec: `planInstallation(target, installed, avoid)`
(`PackageVersion::planInstallation`, whose body is not among the sources).
The depth of the walk is bounded by the number of package versions of the
repository plus one, which is never reached (`planInstallation_ne_cutOff`).  "Planning
never mutates installed state itself": the repository is handed back as it
was received. -/
def Repository.planInstallation (r : Repository) (target : PackageVersion)
    (installed : List PackageVersion) (avoid : List Package) : PlanResult :=
  { repository := r
    outcome := planNode r installed avoid (r.packageVersions.length + 1) target [] [] }

/-! ### Notions used to state the properties of the planner -/

/-- Number of package versions of the repository whose package is not in
progress; it bounds the depth the walk can still reach. -/
def remaining (r : Repository) (inProgress : List String) : Nat :=
  (r.packageVersions.filter (fun pv => decide (pv.packageId ∉ inProgress))).length

/-- Post-order of an operation list relative to the installed set: every
operation is an `Install`, and every dependency of its target is satisfied by
an installed package version or by the target of an earlier operation. -/
def PostOrdered (installed : List PackageVersion) (ops : List InstallOperation) : Prop :=
  ∀ (i : Nat) (h : i < ops.length),
    ops[i].kind = .install ∧
    ∀ d ∈ ops[i].target.dependencies, satisfiedBy installed (ops.take i) d = true

/-- The package version `pv` with only the dependencies `ds`; with `ds` the
dependencies declared before a dependency `d` of `pv`, planning it is planning
what the walk of `pv` does before it reaches `d`. -/
def PackageVersion.withDependencies (pv : PackageVersion) (ds : List Dependency) :
    PackageVersion :=
  { pv with dependencies := ds }

/-- The function `QString::toLower`, on the characters of the string. -/
def toLower (s : String) : String := ⟨s.data.map Char.toLower⟩

/-- The `operator<` of `QString`: lexicographic order of the characters. -/
def qstringLess (a b : String) : Bool := decide (a.data < b.data)

/-- The function `packageVersionLessThan` of `src/nd/ndapp.cpp`.  The field
`package` of the C++ class is `packageId` here.  `PackageVersion::getPackageTitle` is not
among the sources; `getPackageTitle` gives the title of the `Package` a
package identifier refers to. -/
def packageVersionLessThan (getPackageTitle : String → String)
    (pv1 pv2 : PackageVersion) : Bool :=
  if pv1.packageId = pv2.packageId then
    decide (pv1.version.compare pv2.version < 0)
  else
    let pt1 := getPackageTitle pv1.packageId
    let pt2 := getPackageTitle pv2.packageId
    qstringLess (toLower pt1) (toLower pt2)

/-- The pair (lower-cased package title, version) of `pv1` is
lexicographically smaller than that of `pv2`. -/
def titleVersionLess (getPackageTitle : String → String)
    (pv1 pv2 : PackageVersion) : Prop :=
  let t1 := toLower (getPackageTitle pv1.packageId)
  let t2 := toLower (getPackageTitle pv2.packageId)
  t1.data < t2.data ∨ (t1 = t2 ∧ pv1.version.compare pv2.version < 0)

instance (getPackageTitle : String → String) (pv1 pv2 : PackageVersion) :
    Decidable (titleVersionLess getPackageTitle pv1 pv2) := by
  unfold titleVersionLess; infer_instance

/-- What `QDomDocument::setContent` reports when it fails. -/
structure XmlError where
  errorMsg : String
  errorLine : Int
  errorColumn : Int
  deriving DecidableEq

/-- What the test package version found by `findPackageVersion` answers to the
calls of `reinstallTestPackage`. -/
structure TestPackageVersion where
  /-- Result of `pv->installed()`. -/
  installed : Bool
  /-- Value of `job->getErrorMessage()` after `pv->uninstall(job)`. -/
  uninstallError : String
  /-- Result of `pv->planInstallation(installed, ops, avoid)` with the two
  empty lists. -/
  planError : String
  deriving DecidableEq

/-- The results of the external calls of one run of
`App::reinstallTestPackage`. -/
structure TestEnv where
  /-- Result of `f.open(QIODevice::ReadOnly)`. -/
  openOk : Bool
  /-- Result of `doc.setContent`: `none` when it returned `true` (it then
  leaves `err` as it was), otherwise what it stored. -/
  parseError : Option XmlError
  /-- Value of `job->getErrorMessage()` after `r->loadOne(&doc, job)`. -/
  loadError : String
  /-- Result of `r->findPackageVersion(...)`; `none` is the null pointer. -/
  found : Option TestPackageVersion
  deriving DecidableEq

/-- Calls made by `reinstallTestPackage`, in the order of the log. -/
inductive Call where
  | openFile
  | setContent
  | loadOne
  | readRegistryDatabase
  | findPackageVersion
  | installed
  | uninstall
  | planInstallation
  deriving DecidableEq

/-- One run of `reinstallTestPackage`: the returned string (`none` when a null
pointer was dereferenced) and the calls made. -/
structure TestRun where
  result : Option String
  calls : List Call
  deriving DecidableEq

/-- The text `QString("XML parsing failed at line %1, column %2: %3")
.arg(errorLine).arg(errorColumn).arg(err)`. -/
def xmlParsingFailed (e : XmlError) : String :=
  "XML parsing failed at line " ++ (toString e.errorLine ++
    (", column " ++ (toString e.errorColumn ++ (": " ++ e.errorMsg))))

/-- The method `App::reinstallTestPackage` of `src/nd/ndapp.cpp`. -/
def reinstallTestPackage (env : TestEnv) : TestRun :=
  -- QString err; if (!f.open(QIODevice::ReadOnly)) err = "Cannot open ...";
  let err0 : String := if !env.openOk then "Cannot open the repository file" else ""
  let calls0 : List Call := [.openFile]
  -- if (err.isEmpty()) { if (!doc.setContent(...)) err = ...; }
  let step1 : String × List Call :=
    if err0 = "" then
      match env.parseError with
      | some e => (xmlParsingFailed e, calls0 ++ [.setContent])
      | none => (err0, calls0 ++ [.setContent])
    else (err0, calls0)
  -- if (err.isEmpty()) { r->loadOne(&doc, job); err = job->getErrorMessage();
  --                      r->readRegistryDatabase(); }
  let step2 : String × List Call :=
    if step1.1 = "" then (env.loadError, step1.2 ++ [.loadOne, .readRegistryDatabase])
    else step1
  -- PackageVersion* pv = r->findPackageVersion(...);
  let calls3 := step2.2 ++ [.findPackageVersion]
  if step2.1 = "" then
    match env.found with
    | none =>
      -- pv->installed() on the null pointer
      { result := none, calls := calls3 ++ [.installed] }
    | some pv =>
      -- if (pv->installed()) { pv->uninstall(job); err = job->getErrorMessage(); }
      let step3 : String × List Call :=
        if pv.installed then (pv.uninstallError, calls3 ++ [.installed, .uninstall])
        else (step2.1, calls3 ++ [.installed])
      if step3.1 = "" then
        -- err = pv->planInstallation(installed, ops, avoid);
        let err := pv.planError
        { result := some (if err = "" then "Packages cannot depend on itself" else ""),
          calls := step3.2 ++ [.planInstallation] }
      else
        { result := some step3.1, calls := step3.2 }
  else
    { result := some step2.1, calls := calls3 }

/-- The method `App::unitTests` of `src/nd/ndapp.cpp`: both tests are run,
their results are only printed, and `0` is returned.  `none` when a run dereferenced the
null pointer. -/
def unitTests (env1 env2 : TestEnv) : Option Int :=
  match (reinstallTestPackage env1).result with
  | none => none
  | some _ =>
    match (reinstallTestPackage env2).result with
    | none => none
    | some _ => some 0

/-- The method `App::findUpdates` of `src/nd/ndapp.cpp`; `jobError` is
`job->getErrorMessage()` after `us.findUpdates(job)`. -/
def findUpdates (jobError : String) : Int :=
  let r : Int := 0
  if jobError ≠ "" then 1 else r

/-- What `App::process` receives from its surroundings. -/
structure ProcessEnv where
  /-- Result of `cl.parse()`. -/
  parseError : String
  /-- Result of `cl.getFreeArguments()`. -/
  freeArguments : List String
  /-- External results of the run on `TestDependsOnItself.xml`. -/
  testDependsOnItself : TestEnv
  /-- External results of the run on `TestPackageMissing.xml`. -/
  testPackageMissing : TestEnv
  /-- Error message of the job of `findUpdates`. -/
  findUpdatesError : String
  deriving DecidableEq

/-- The method `App::process` of `src/nd/ndapp.cpp`: the exit code, `none` when
`unitTests` did not return. -/
def process (env : ProcessEnv) : Option Int :=
  if env.parseError ≠ "" then
    some 1
  else
    let r : Int := 0
    let fr := env.freeArguments
    if fr.length = 0 then
      some 1
    else if fr.length > 1 then
      some 1
    else
      let cmd := fr.getD 0 ""
      if cmd = "help" then
        some r
      else if cmd = "unit-tests" then
        unitTests env.testDependsOnItself env.testPackageMissing
      else if cmd = "find-updates" then
        some (findUpdates env.findUpdatesError)
      else
        some 1

/-! ## Sample repositories and runs -/

/-- Name of the test package of `App::reinstallTestPackage`. -/
def testPackageName : String := "com.googlecode.windows-package-manager.Test"

/-- Version `1.0`, as built by `Version(1, 0)`. -/
def version_1_0 : Version := ⟨[1, 0]⟩

/-- The dependency on versions [1.0, 2.0) of a package that no repository
holds. -/
def nonExistingDependency : Dependency :=
  { packageId := "com.googlecode.windows-package-manager.NonExisting",
    min := ⟨[1, 0]⟩, max := ⟨[2, 0]⟩, minInclusive := true, maxInclusive := false }

/-- The test package version 1.0 with a dependency on a package that the
repository does not hold (the situation tested with `TestPackageMissing.xml`). -/
def testPackageMissingPV : PackageVersion :=
  { packageId := testPackageName, version := version_1_0,
    dependencies := [nonExistingDependency],
    installPath := none, external := false, locked := false }

/-- Repository holding `testPackageMissingPV`. -/
def testPackageMissingRepo : Repository :=
  { packages := [{ id := testPackageName, title := "Test", description := "", url := "",
                   iconUrl := "", category := "" }],
    packageVersions := [testPackageMissingPV] }

/-- The dependency "org.example.Lib [1, 2)". -/
def libDependency : Dependency :=
  { packageId := "org.example.Lib", min := ⟨[1]⟩, max := ⟨[2]⟩,
    minInclusive := true, maxInclusive := false }

/-- Version 1.0 of `org.example.Lib`, without dependencies. -/
def sampleLib10 : PackageVersion :=
  { packageId := "org.example.Lib", version := ⟨[1]⟩, dependencies := [],
    installPath := none, external := false, locked := false }

/-- Version 1.5 of `org.example.Lib`, without dependencies. -/
def sampleLib15 : PackageVersion :=
  { packageId := "org.example.Lib", version := ⟨[1, 5]⟩, dependencies := [],
    installPath := none, external := false, locked := false }

/-- Version 2 of `org.example.App`, which needs `org.example.Lib [1, 2)`. -/
def sampleApp : PackageVersion :=
  { packageId := "org.example.App", version := ⟨[2]⟩, dependencies := [libDependency],
    installPath := none, external := false, locked := false }

/-- A repository with an application and two versions of its library. -/
def sampleRepo : Repository :=
  { packages := [], packageVersions := [sampleLib10, sampleLib15, sampleApp] }

/-- The plan for `sampleApp` in `sampleRepo`: the newest matching library
first, then the application. -/
def sampleOps : List InstallOperation :=
  [⟨sampleLib15, .install⟩, ⟨sampleApp, .install⟩]

/-- The dependency on any version from 0 to 100 of the given package. -/
def anyVersionOf (packageId : String) : Dependency :=
  { packageId := packageId, min := ⟨[0]⟩, max := ⟨[100]⟩,
    minInclusive := true, maxInclusive := true }

/-- Version 1 of `org.example.X`, without dependencies. -/
def sampleX : PackageVersion :=
  { packageId := "org.example.X", version := ⟨[1]⟩, dependencies := [],
    installPath := none, external := false, locked := false }

/-- The dependency on any version of a package `org.example.Missing`. -/
def missingDependency : Dependency := anyVersionOf "org.example.Missing"

/-- Version 1 of `org.example.A`, not installed, which needs its own package
and then the missing package. -/
def selfThenMissingPV : PackageVersion :=
  { packageId := "org.example.A", version := ⟨[1]⟩,
    dependencies := [anyVersionOf "org.example.A", missingDependency],
    installPath := none, external := false, locked := false }

/-- Repository holding `selfThenMissingPV` only. -/
def selfThenMissingRepo : Repository :=
  { packages := [], packageVersions := [selfThenMissingPV] }

/-- Version 1 of `org.example.App`, not installed, which needs `org.example.X`
and then the missing package. -/
def avoidedThenMissingPV : PackageVersion :=
  { packageId := "org.example.App", version := ⟨[1]⟩,
    dependencies := [anyVersionOf "org.example.X", missingDependency],
    installPath := none, external := false, locked := false }

/-- Repository holding `avoidedThenMissingPV` and `sampleX`. -/
def avoidedThenMissingRepo : Repository :=
  { packages := [], packageVersions := [avoidedThenMissingPV, sampleX] }

/-- The package `org.example.X`, which the caller forbids touching. -/
def packageX : Package :=
  { id := "org.example.X", title := "X", description := "", url := "", iconUrl := "",
    category := "" }

/-- Titles of two different packages that differ only in case. -/
def fooTitles (packageId : String) : String :=
  if packageId = "org.a.Foo" then "Foo" else "foo"

/-- Version 1 of the package `org.a.Foo`. -/
def fooA : PackageVersion :=
  { packageId := "org.a.Foo", version := ⟨[1]⟩, dependencies := [],
    installPath := none, external := false, locked := false }

/-- Version 2 of the package `org.a.Foo`. -/
def fooA2 : PackageVersion :=
  { packageId := "org.a.Foo", version := ⟨[2]⟩, dependencies := [],
    installPath := none, external := false, locked := false }

/-- Version 2 of the package `org.b.Foo`. -/
def fooB : PackageVersion :=
  { packageId := "org.b.Foo", version := ⟨[2]⟩, dependencies := [],
    installPath := none, external := false, locked := false }

/-- A run in which the repository file cannot be opened and the default
repository does not hold the test package. -/
def unopenedFileEnv : TestEnv :=
  { openOk := false, parseError := none, loadError := "", found := none }

/-- A run in which the file is loaded, the test package version is found, is
not installed, and planning its installation fails. -/
def planFailsEnv : TestEnv :=
  { openOk := true, parseError := none, loadError := "",
    found := some { installed := false, uninstallError := "",
                    planError := "packages cannot depend on themselves" } }

/-- A run in which the file is loaded, the test package version is found, is
not installed, and planning its installation succeeds. -/
def planSucceedsEnv : TestEnv :=
  { openOk := true, parseError := none, loadError := "",
    found := some { installed := false, uninstallError := "", planError := "" } }

/-- A run in which uninstalling the installed test package version fails. -/
def uninstallFailsEnv : TestEnv :=
  { openOk := true, parseError := none, loadError := "",
    found := some { installed := true, uninstallError := "locked", planError := "" } }

/-- The command line `nd unit-tests`, started where neither test repository
file can be opened. -/
def unitTestsFailingEnv : ProcessEnv :=
  { parseError := "", freeArguments := ["unit-tests"],
    testDependsOnItself := unopenedFileEnv, testPackageMissing := unopenedFileEnv,
    findUpdatesError := "" }

/-- The command line `nd find-updates` with a failing job. -/
def findUpdatesFailingEnv : ProcessEnv :=
  { parseError := "", freeArguments := ["find-updates"],
    testDependsOnItself := unopenedFileEnv, testPackageMissing := unopenedFileEnv,
    findUpdatesError := "download failed" }

/-! ## Lemmas on the version order -/

theorem compareMissing_nonpos (bs : List Nat) : compareMissing bs ≤ 0 := by
  induction bs with
  | nil => simp [compareMissing]
  | cons b bs ih =>
    simp only [compareMissing]
    split <;> omega

theorem compareParts_nil_right (as : List Nat) :
    compareParts as [] = - compareMissing as := by
  induction as with
  | nil => simp [compareParts, compareMissing]
  | cons a as ih =>
    simp only [compareParts, compareMissing, ih]
    split <;> simp

theorem compareParts_antisymm (as bs : List Nat) :
    compareParts as bs = - compareParts bs as := by
  induction as generalizing bs with
  | nil =>
    rw [compareParts_nil_right]; simp [compareParts]
  | cons a as ih =>
    cases bs with
    | nil => rw [compareParts_nil_right]; simp [compareParts]
    | cons b bs =>
      simp only [compareParts]
      rw [ih bs]
      split_ifs <;> omega

theorem compareParts_range (as bs : List Nat) :
    compareParts as bs = -1 ∨ compareParts as bs = 0 ∨ compareParts as bs = 1 := by
  induction as generalizing bs with
  | nil =>
    induction bs with
    | nil => simp [compareParts, compareMissing]
    | cons b bs ih =>
      simp only [compareParts, compareMissing] at ih ⊢
      split_ifs <;> simp_all
  | cons a as ih =>
    cases bs with
    | nil =>
      simp only [compareParts]
      split_ifs
      · simp
      · exact ih []
    | cons b bs =>
      simp only [compareParts]
      split_ifs
      · simp
      · simp
      · exact ih bs

theorem compareParts_trans (as bs cs : List Nat)
    (h1 : compareParts as bs ≤ 0) (h2 : compareParts bs cs ≤ 0) :
    compareParts as cs ≤ 0 := by
  induction as generalizing bs cs with
  | nil => simpa [compareParts] using compareMissing_nonpos cs
  | cons a as ih =>
    cases bs with
    | nil =>
      simp only [compareParts] at h1
      split_ifs at h1 with ha
      · omega
      · cases cs with
        | nil => simpa [compareParts, ha] using h1
        | cons c cs =>
          simp only [compareParts]
          split_ifs with h3 h4
          · omega
          · omega
          · exact ih [] cs h1 (by simpa [compareParts] using compareMissing_nonpos cs)
    | cons b bs =>
      simp only [compareParts] at h1
      split_ifs at h1 with hab hba
      · cases cs with
        | nil =>
          simp only [compareParts] at h2
          split_ifs at h2 with hb
          · omega
          · omega
        | cons c cs =>
          simp only [compareParts] at h2 ⊢
          split_ifs at h2 ⊢ <;> omega
      · omega
      · cases cs with
        | nil =>
          simp only [compareParts] at h2 ⊢
          split_ifs at h2 ⊢ <;> first | omega | exact ih bs [] h1 h2
        | cons c cs =>
          simp only [compareParts] at h2 ⊢
          split_ifs at h2 ⊢ <;> first | omega | exact ih bs cs h1 h2


theorem compareMissing_eq_zero (bs : List Nat) (h : compareMissing bs = 0) :
    stripTrailingZeros bs = [] := by
  induction bs with
  | nil => rfl
  | cons b bs ih =>
    simp only [compareMissing] at h
    split_ifs at h with hb
    · have hb0 : b = 0 := by omega
      simp [stripTrailingZeros, ih h, hb0]

theorem compareParts_eq_zero (as bs : List Nat) (h : compareParts as bs = 0) :
    stripTrailingZeros as = stripTrailingZeros bs := by
  induction as generalizing bs with
  | nil =>
    simp only [compareParts] at h
    rw [compareMissing_eq_zero bs h]; rfl
  | cons a as ih =>
    cases bs with
    | nil =>
      simp only [compareParts] at h
      split_ifs at h with ha
      · omega
      · have ha0 : a = 0 := by omega
        have := ih [] h
        simp only [stripTrailingZeros] at this ⊢
        simp [this, ha0]
    | cons b bs =>
      simp only [compareParts] at h
      split_ifs at h with h1 h2
      · omega
      · have hab : a = b := by omega
        subst hab
        simp only [stripTrailingZeros, ih bs h]

/-! ## Lemmas on the planner -/

theorem foldl_newerOf_some (l : List PackageVersion) (acc : PackageVersion) :
    ∃ pv, l.foldl newerOf (some acc) = some pv ∧ (pv = acc ∨ pv ∈ l) := by
  induction l generalizing acc with
  | nil => exact ⟨acc, rfl, Or.inl rfl⟩
  | cons x xs ih =>
    simp only [List.foldl_cons, newerOf]
    split_ifs
    · obtain ⟨pv, h1, h2⟩ := ih x
      exact ⟨pv, h1, by rcases h2 with h | h <;> simp [h]⟩
    · obtain ⟨pv, h1, h2⟩ := ih acc
      exact ⟨pv, h1, by rcases h2 with h | h <;> simp [h]⟩

theorem findBestMatch_eq_some {r : Repository} {d : Dependency} {pv : PackageVersion}
    (h : r.findBestMatch d = some pv) :
    pv ∈ r.packageVersions ∧ pv.satisfies d = true := by
  unfold Repository.findBestMatch at h
  have key : ∀ q, q ∈ r.packageVersions.filter (fun pv => pv.satisfies d) →
      q ∈ r.packageVersions ∧ q.satisfies d = true := by
    intro q hq; simpa [List.mem_filter] using hq
  generalize r.packageVersions.filter (fun pv => pv.satisfies d) = l at h key
  cases l with
  | nil => simp at h
  | cons x xs =>
    simp only [List.foldl_cons, newerOf] at h
    obtain ⟨pv', h1, h2⟩ := foldl_newerOf_some xs x
    rw [h1] at h
    cases h
    apply key
    rcases h2 with h2 | h2 <;> simp [h2]

theorem remaining_cons_lt {r : Repository} {pv : PackageVersion} {inProgress : List String}
    (hmem : pv ∈ r.packageVersions) (hnot : pv.packageId ∉ inProgress) :
    remaining r (pv.packageId :: inProgress) < remaining r inProgress := by
  unfold remaining
  have hf : r.packageVersions.filter (fun q => decide (q.packageId ∉ pv.packageId :: inProgress))
      = (r.packageVersions.filter (fun q => decide (q.packageId ∉ inProgress))).filter
          (fun q => decide (q.packageId ≠ pv.packageId)) := by
    rw [List.filter_filter]
    congr 1
    funext q
    simp [List.mem_cons, not_or]
  rw [hf, List.length_filter_lt_length_iff_exists]
  exact ⟨pv, by simp [List.mem_filter, hmem, hnot], by simp⟩

theorem remaining_le (r : Repository) (inProgress : List String) :
    remaining r inProgress ≤ r.packageVersions.length :=
  List.length_filter_le _ _

theorem planDependencies_ne_cutOff {r : Repository} {installed : List PackageVersion}
    {avoid : List Package}
    {f : PackageVersion → List String → List InstallOperation → PlanOutcome}
    {inProgress : List String}
    (hf : ∀ pv ops, pv ∈ r.packageVersions → pv.packageId ∉ inProgress →
      f pv inProgress ops ≠ .cutOff)
    (ds : List Dependency) (ops : List InstallOperation) :
    planDependencies r installed avoid f ds inProgress ops ≠ .cutOff := by
  induction ds generalizing ops with
  | nil => simp [planDependencies]
  | cons d ds ih =>
    simp only [planDependencies]
    split_ifs with hs
    · exact ih ops
    · cases hb : r.findBestMatch d with
      | none => simp
      | some pv =>
        simp only
        split_ifs with ha hp
        · simp
        · simp
        · have hpv := (findBestMatch_eq_some hb).1
          have := hf pv ops hpv hp
          cases hr : f pv inProgress ops with
          | cutOff => exact absurd hr this
          | failed e => simp
          | planned ops' => exact ih ops'

theorem planNode_ne_cutOff (r : Repository) (installed : List PackageVersion)
    (avoid : List Package) (fuel : Nat) (node : PackageVersion)
    (inProgress : List String) (ops : List InstallOperation)
    (h : remaining r (node.packageId :: inProgress) < fuel) :
    planNode r installed avoid fuel node inProgress ops ≠ .cutOff := by
  induction fuel generalizing node inProgress ops with
  | zero => omega
  | succ fuel ih =>
    simp only [planNode]
    split_ifs with hn
    · simp
    · have hd := @planDependencies_ne_cutOff r installed avoid
        (planNode r installed avoid fuel) (node.packageId :: inProgress)
        (fun pv ops' hmem hnot => ih pv _ ops' (by
          have := remaining_cons_lt hmem hnot
          omega))
        node.dependencies ops
      cases hr : planDependencies r installed avoid (planNode r installed avoid fuel)
          node.dependencies (node.packageId :: inProgress) ops with
      | cutOff => exact absurd hr hd
      | failed e => simp
      | planned ops' => simp

theorem planDependencies_cons_planned {r : Repository} {installed : List PackageVersion}
    {avoid : List Package}
    {f : PackageVersion → List String → List InstallOperation → PlanOutcome}
    {d : Dependency} {ds : List Dependency} {inProgress : List String}
    {ops res : List InstallOperation}
    (h : planDependencies r installed avoid f (d :: ds) inProgress ops = .planned res) :
    (satisfiedBy installed ops d = true ∧
      planDependencies r installed avoid f ds inProgress ops = .planned res) ∨
    (satisfiedBy installed ops d = false ∧
      ∃ pv mid, r.findBestMatch d = some pv ∧
        avoid.any (fun p => p.id == pv.packageId) = false ∧
        pv.packageId ∉ inProgress ∧
        f pv inProgress ops = .planned mid ∧
        planDependencies r installed avoid f ds inProgress mid = .planned res) := by
  simp only [planDependencies] at h
  split_ifs at h with hs
  · exact Or.inl ⟨hs, h⟩
  · right
    refine ⟨by simpa using hs, ?_⟩
    cases hb : r.findBestMatch d with
    | none => simp [hb] at h
    | some pv =>
      simp only [hb] at h
      split_ifs at h with ha hp
      cases hr : f pv inProgress ops with
      | cutOff => simp [hr] at h
      | failed e => simp [hr] at h
      | planned mid =>
        simp only [hr] at h
        exact ⟨pv, mid, rfl, by simpa using ha, hp, hr, h⟩

theorem planNode_succ_planned {r : Repository} {installed : List PackageVersion}
    {avoid : List Package} {fuel : Nat} {node : PackageVersion} {inProgress : List String}
    {ops res : List InstallOperation}
    (h : planNode r installed avoid (fuel + 1) node inProgress ops = .planned res) :
    (installed.any (fun pv => pv.sameIdentity node) = true ∧
      node.dependencies.all (satisfiedBy installed ops) = true ∧ res = ops) ∨
    (∃ mid, planDependencies r installed avoid (planNode r installed avoid fuel)
        node.dependencies (node.packageId :: inProgress) ops = .planned mid ∧
      res = mid ++ [⟨node, .install⟩]) := by
  simp only [planNode] at h
  split_ifs at h with hn
  · left
    simp only [Bool.and_eq_true] at hn
    simp only [PlanOutcome.planned.injEq] at h
    exact ⟨hn.1, hn.2, h.symm⟩
  · right
    cases hr : planDependencies r installed avoid (planNode r installed avoid fuel)
        node.dependencies (node.packageId :: inProgress) ops with
    | cutOff => simp [hr] at h
    | failed e => simp [hr] at h
    | planned mid =>
      simp only [hr, PlanOutcome.planned.injEq] at h
      exact ⟨mid, rfl, h.symm⟩

theorem satisfiedBy_append {installed : List PackageVersion} {ops : List InstallOperation}
    {d : Dependency} (t : List InstallOperation)
    (h : satisfiedBy installed ops d = true) : satisfiedBy installed (ops ++ t) d = true := by
  simp only [satisfiedBy, Bool.or_eq_true, List.any_eq_true, List.mem_append] at h ⊢
  rcases h with h | ⟨op, hop, hs⟩
  · exact Or.inl h
  · exact Or.inr ⟨op, Or.inl hop, hs⟩

theorem satisfiedBy_of_sameIdentity {installed : List PackageVersion}
    {ops : List InstallOperation} {node : PackageVersion} {d : Dependency}
    (hi : installed.any (fun pv => pv.sameIdentity node) = true)
    (hs : node.satisfies d = true) : satisfiedBy installed ops d = true := by
  simp only [List.any_eq_true] at hi
  obtain ⟨pv, hpv, hid⟩ := hi
  simp only [PackageVersion.sameIdentity, Bool.and_eq_true, beq_iff_eq] at hid
  simp only [satisfiedBy, Bool.or_eq_true, List.any_eq_true]
  left
  refine ⟨pv, hpv, ?_⟩
  simp only [PackageVersion.satisfies] at hs ⊢
  rw [hid.1, hid.2]; exact hs

theorem postOrdered_nil (installed : List PackageVersion) : PostOrdered installed [] := by
  intro i h; simp at h

theorem postOrdered_append_singleton {installed : List PackageVersion}
    {ops : List InstallOperation} {node : PackageVersion}
    (ho : PostOrdered installed ops)
    (hd : ∀ d ∈ node.dependencies, satisfiedBy installed ops d = true) :
    PostOrdered installed (ops ++ [⟨node, .install⟩]) := by
  intro i h
  by_cases hi : i < ops.length
  · have h1 : (ops ++ [(⟨node, .install⟩ : InstallOperation)])[i] = ops[i] :=
      List.getElem_append_left hi
    have h2 : (ops ++ [(⟨node, .install⟩ : InstallOperation)]).take i = ops.take i :=
      List.take_append_of_le_length (by omega)
    rw [h1, h2]
    exact ho i hi
  · have hlen : i = ops.length := by
      simp only [List.length_append, List.length_singleton] at h; omega
    subst hlen
    have h1 : (ops ++ [(⟨node, .install⟩ : InstallOperation)])[ops.length] = ⟨node, .install⟩ := by
      simp
    have h2 : (ops ++ [(⟨node, .install⟩ : InstallOperation)]).take ops.length = ops := by
      simp
    rw [h1, h2]
    exact ⟨rfl, hd⟩

/-- Success of the dependency loop keeps the post-order, only appends, and
leaves every dependency of the list satisfied. -/
theorem planDependencies_postOrdered {r : Repository} {installed : List PackageVersion}
    {avoid : List Package}
    {f : PackageVersion → List String → List InstallOperation → PlanOutcome}
    {inProgress : List String}
    (hf : ∀ pv ops res, PostOrdered installed ops → f pv inProgress ops = .planned res →
      PostOrdered installed res ∧ (∃ t, res = ops ++ t) ∧
      ∀ d, pv.satisfies d = true → satisfiedBy installed res d = true)
    (ds : List Dependency) (ops res : List InstallOperation)
    (ho : PostOrdered installed ops)
    (h : planDependencies r installed avoid f ds inProgress ops = .planned res) :
    PostOrdered installed res ∧ (∃ t, res = ops ++ t) ∧
      ∀ d ∈ ds, satisfiedBy installed res d = true := by
  induction ds generalizing ops with
  | nil =>
    simp only [planDependencies, PlanOutcome.planned.injEq] at h
    subst h
    exact ⟨ho, ⟨[], by simp⟩, by simp⟩
  | cons d ds ih =>
    rcases planDependencies_cons_planned h with ⟨hs, hrest⟩ | ⟨_, pv, mid, hb, _, _, hpv, hrest⟩
    · obtain ⟨h1, ⟨t, ht⟩, h3⟩ := ih ops ho hrest
      refine ⟨h1, ⟨t, ht⟩, ?_⟩
      intro d' hd'
      rcases List.mem_cons.1 hd' with rfl | hd'
      · rw [ht]; exact satisfiedBy_append t hs
      · exact h3 d' hd'
    · obtain ⟨hm1, ⟨t1, ht1⟩, hm3⟩ := hf pv ops mid ho hpv
      obtain ⟨h1, ⟨t, ht⟩, h3⟩ := ih mid hm1 hrest
      refine ⟨h1, ⟨t1 ++ t, by rw [ht, ht1, List.append_assoc]⟩, ?_⟩
      intro d' hd'
      rcases List.mem_cons.1 hd' with rfl | hd'
      · rw [ht]; exact satisfiedBy_append t (hm3 _ (findBestMatch_eq_some hb).2)
      · exact h3 d' hd'

theorem planNode_postOrdered (r : Repository) (installed : List PackageVersion)
    (avoid : List Package) (fuel : Nat) (node : PackageVersion)
    (inProgress : List String) (ops res : List InstallOperation)
    (ho : PostOrdered installed ops)
    (h : planNode r installed avoid fuel node inProgress ops = .planned res) :
    PostOrdered installed res ∧ (∃ t, res = ops ++ t) ∧
      ∀ d, node.satisfies d = true → satisfiedBy installed res d = true := by
  induction fuel generalizing node inProgress ops res with
  | zero => simp [planNode] at h
  | succ fuel ih =>
    rcases planNode_succ_planned h with ⟨hi, _, rfl⟩ | ⟨mid, hmid, rfl⟩
    · exact ⟨ho, ⟨[], by simp⟩, fun d hs => satisfiedBy_of_sameIdentity hi hs⟩
    · obtain ⟨h1, ⟨t, ht⟩, h3⟩ := planDependencies_postOrdered
        (fun pv ops' res' ho' h' => ih pv _ ops' res' ho' h') node.dependencies ops mid ho hmid
      refine ⟨postOrdered_append_singleton h1 h3, ⟨t ++ [⟨node, .install⟩], ?_⟩, ?_⟩
      · rw [ht, List.append_assoc]
      · intro d hs
        simp only [satisfiedBy, Bool.or_eq_true, List.any_eq_true, List.mem_append,
          List.mem_singleton]
        exact Or.inr ⟨⟨node, .install⟩, Or.inr rfl, hs⟩

/-- Every operation planned by the dependency loop targets a package version
of the repository. -/
theorem planDependencies_targets {r : Repository} {installed : List PackageVersion}
    {avoid : List Package}
    {f : PackageVersion → List String → List InstallOperation → PlanOutcome}
    {inProgress : List String}
    (hf : ∀ pv ops res, pv ∈ r.packageVersions →
      (∀ op ∈ ops, op.target ∈ r.packageVersions) → f pv inProgress ops = .planned res →
      ∀ op ∈ res, op.target ∈ r.packageVersions)
    (ds : List Dependency) (ops res : List InstallOperation)
    (ho : ∀ op ∈ ops, op.target ∈ r.packageVersions)
    (h : planDependencies r installed avoid f ds inProgress ops = .planned res) :
    ∀ op ∈ res, op.target ∈ r.packageVersions := by
  induction ds generalizing ops with
  | nil =>
    simp only [planDependencies, PlanOutcome.planned.injEq] at h
    subst h; exact ho
  | cons d ds ih =>
    rcases planDependencies_cons_planned h with ⟨_, hrest⟩ | ⟨_, pv, mid, hb, _, _, hpv, hrest⟩
    · exact ih ops ho hrest
    · exact ih mid (hf pv ops mid (findBestMatch_eq_some hb).1 ho hpv) hrest

theorem planNode_targets (r : Repository) (installed : List PackageVersion)
    (avoid : List Package) (fuel : Nat) (node : PackageVersion)
    (inProgress : List String) (ops res : List InstallOperation)
    (hn : node ∈ r.packageVersions)
    (ho : ∀ op ∈ ops, op.target ∈ r.packageVersions)
    (h : planNode r installed avoid fuel node inProgress ops = .planned res) :
    ∀ op ∈ res, op.target ∈ r.packageVersions := by
  induction fuel generalizing node inProgress ops res with
  | zero => simp [planNode] at h
  | succ fuel ih =>
    rcases planNode_succ_planned h with ⟨_, _, rfl⟩ | ⟨mid, hmid, rfl⟩
    · exact ho
    · have := planDependencies_targets
        (fun pv ops' res' hpv ho' h' => ih pv _ ops' res' hpv ho' h')
        node.dependencies ops mid ho hmid
      intro op hop
      rcases List.mem_append.1 hop with hop | hop
      · exact this op hop
      · simp only [List.mem_singleton] at hop
        subst hop; exact hn

theorem planError_message_ne_empty (e : PlanError) : e.message ≠ "" := by
  cases e <;> simp only [PlanError.message] <;> decide

theorem findBestMatch_none_of {r : Repository} {d : Dependency}
    (h : ∀ pv ∈ r.packageVersions, pv.satisfies d = false) :
    r.findBestMatch d = none := by
  cases hb : r.findBestMatch d with
  | none => rfl
  | some pv =>
    have := findBestMatch_eq_some hb
    rw [h pv this.1] at this
    exact absurd this.2 (by simp)

theorem satisfiedBy_false_of {r : Repository} {installed : List PackageVersion}
    {ops : List InstallOperation} {d : Dependency}
    (hrepo : ∀ q ∈ r.packageVersions, q.satisfies d = false)
    (hinst : ∀ q ∈ installed, q.satisfies d = false)
    (hops : ∀ op ∈ ops, op.target ∈ r.packageVersions) :
    satisfiedBy installed ops d = false := by
  cases hs : satisfiedBy installed ops d with
  | false => rfl
  | true =>
    simp only [satisfiedBy, Bool.or_eq_true, List.any_eq_true] at hs
    rcases hs with ⟨pv, hpv, hsat⟩ | ⟨op, hop, hsat⟩
    · rw [hinst pv hpv] at hsat; cases hsat
    · rw [hrepo _ (hops op hop)] at hsat; cases hsat

theorem planInstallation_ne_cutOff (r : Repository) (target : PackageVersion)
    (installed : List PackageVersion) (avoid : List Package) :
    (r.planInstallation target installed avoid).outcome ≠ .cutOff := by
  apply planNode_ne_cutOff
  have := remaining_le r [target.packageId]
  omega

theorem planDependencies_append {r : Repository} {installed : List PackageVersion}
    {avoid : List Package}
    {f : PackageVersion → List String → List InstallOperation → PlanOutcome}
    (xs ys : List Dependency) (inProgress : List String) (ops : List InstallOperation) :
    planDependencies r installed avoid f (xs ++ ys) inProgress ops =
      match planDependencies r installed avoid f xs inProgress ops with
      | PlanOutcome.planned mid => planDependencies r installed avoid f ys inProgress mid
      | other => other := by
  induction xs generalizing ops with
  | nil => simp [planDependencies]
  | cons x xs ih =>
    simp only [List.cons_append, planDependencies]
    split_ifs with hs
    · exact ih ops
    · cases hb : r.findBestMatch x with
      | none => rfl
      | some pv =>
        simp only
        split_ifs with ha hp
        · rfl
        · rfl
        · cases hr : f pv inProgress ops with
          | cutOff => rfl
          | failed e => rfl
          | planned mid => exact ih mid

theorem planDependencies_all_satisfied {r : Repository} {installed : List PackageVersion}
    {avoid : List Package}
    {f : PackageVersion → List String → List InstallOperation → PlanOutcome}
    (xs : List Dependency) (inProgress : List String) (ops : List InstallOperation)
    (h : xs.all (satisfiedBy installed ops) = true) :
    planDependencies r installed avoid f xs inProgress ops = .planned ops := by
  induction xs with
  | nil => rfl
  | cons x xs ih =>
    simp only [List.all_cons, Bool.and_eq_true] at h
    simp only [planDependencies, h.1, if_true]
    exact ih h.2

/-- The walk of a package version whose dependency list is `pre ++ d :: post`
first plans `pre`, then `d :: post`, then emits the package version. -/
theorem planNode_split (r : Repository) (installed : List PackageVersion)
    (avoid : List Package) (fuel : Nat) (pv : PackageVersion)
    (pre post : List Dependency) (d : Dependency)
    (inProgress : List String) (ops : List InstallOperation)
    (hdeps : pv.dependencies = pre ++ d :: post)
    (hd : satisfiedBy installed ops d = false) :
    planNode r installed avoid (fuel + 1) pv inProgress ops =
      match planDependencies r installed avoid (planNode r installed avoid fuel) pre
          (pv.packageId :: inProgress) ops with
      | PlanOutcome.planned mid =>
        (match planDependencies r installed avoid (planNode r installed avoid fuel) (d :: post)
            (pv.packageId :: inProgress) mid with
          | PlanOutcome.planned res => PlanOutcome.planned (res ++ [⟨pv, .install⟩])
          | other => other)
      | other => other := by
  have hall : pv.dependencies.all (satisfiedBy installed ops) = false := by
    apply Bool.eq_false_iff.2
    intro hall
    have := List.all_eq_true.1 hall d (by rw [hdeps]; simp)
    rw [hd] at this; cases this
  simp only [planNode, hall, Bool.and_false, Bool.false_eq_true, if_false]
  rw [hdeps, planDependencies_append]
  cases planDependencies r installed avoid (planNode r installed avoid fuel) pre
      (pv.packageId :: inProgress) ops <;> rfl

/-- What the walk of `pv` restricted to the dependencies `pre` tells about the
dependency loop over `pre`. -/
theorem planNode_withDependencies (r : Repository) (installed : List PackageVersion)
    (avoid : List Package) (fuel : Nat) (pv : PackageVersion) (pre : List Dependency)
    (inProgress : List String) (ops : List InstallOperation) :
    (∀ e, planNode r installed avoid (fuel + 1) (pv.withDependencies pre) inProgress ops
        = .failed e →
      planDependencies r installed avoid (planNode r installed avoid fuel) pre
        (pv.packageId :: inProgress) ops = .failed e) ∧
    (∀ res, planNode r installed avoid (fuel + 1) (pv.withDependencies pre) inProgress ops
        = .planned res →
      ∃ mid, planDependencies r installed avoid (planNode r installed avoid fuel) pre
        (pv.packageId :: inProgress) ops = .planned mid ∧ ∀ op ∈ mid, op ∈ res) := by
  have hdeps : (pv.withDependencies pre).dependencies = pre := rfl
  have hid : (pv.withDependencies pre).packageId = pv.packageId := rfl
  constructor
  · intro e h
    simp only [planNode, hdeps, hid] at h
    split_ifs at h with hn
    cases hr : planDependencies r installed avoid (planNode r installed avoid fuel) pre
        (pv.packageId :: inProgress) ops with
    | cutOff => simp [hr] at h
    | failed e2 => simpa [hr] using h
    | planned mid => simp [hr] at h
  · intro res h
    rcases planNode_succ_planned h with ⟨_, hall, rfl⟩ | ⟨mid, hmid, rfl⟩
    · exact ⟨res, planDependencies_all_satisfied pre _ res hall, fun op hop => hop⟩
    · exact ⟨mid, hmid, fun op hop => List.mem_append_left _ hop⟩

theorem planInstallation_before_cases (r : Repository) (pv : PackageVersion)
    (installed : List PackageVersion) (avoid : List Package) :
    (∃ e, (r.planInstallation pv installed avoid).outcome = .failed e) ∨
    (∃ ops, (r.planInstallation pv installed avoid).outcome = .planned ops) := by
  cases ho : (r.planInstallation pv installed avoid).outcome with
  | cutOff => exact absurd ho (planInstallation_ne_cutOff r pv installed avoid)
  | failed e => exact Or.inl ⟨e, rfl⟩
  | planned ops => exact Or.inr ⟨ops, rfl⟩

/-- The error of planning the dependencies declared before an unsatisfied
dependency is the error of planning the package version itself. -/
theorem planInstallation_prefix_failed (r : Repository) (pv : PackageVersion)
    (installed : List PackageVersion) (avoid : List Package)
    (pre post : List Dependency) (d : Dependency)
    (hdeps : pv.dependencies = pre ++ d :: post)
    (hd : satisfiedBy installed [] d = false) (e : PlanError)
    (h : (r.planInstallation (pv.withDependencies pre) installed avoid).outcome = .failed e) :
    (r.planInstallation pv installed avoid).outcome = .failed e := by
  have hpre := (planNode_withDependencies r installed avoid _ pv pre [] []).1 e h
  show planNode r installed avoid (r.packageVersions.length + 1) pv [] [] = _
  rw [planNode_split r installed avoid _ pv pre post d [] [] hdeps hd, hpre]

theorem xmlParsingFailed_ne_empty (e : XmlError) : xmlParsingFailed e ≠ "" := by
  intro hc
  have h := congrArg String.length hc
  unfold xmlParsingFailed at h
  rw [String.length_append] at h
  have h2 : "XML parsing failed at line ".length = 27 := by decide
  have h3 : "".length = 0 := by decide
  omega

theorem unitTests_eq (env1 env2 : TestEnv) :
    unitTests env1 env2 = some 0 ∨ unitTests env1 env2 = none := by
  unfold unitTests
  split
  · exact Or.inr rfl
  · split
    · exact Or.inr rfl
    · exact Or.inl rfl

theorem findUpdates_range (jobError : String) :
    findUpdates jobError = 0 ∨ findUpdates jobError = 1 := by
  unfold findUpdates
  split <;> simp

/-! ## Main theorems -/

/-- C2 (amended): when a dependency `d` of `pv` is matched by no package
version of the repository and by no member of the installed list,
`planInstallation` never yields a plan and returns a non-empty error string:
the error of planning the dependencies declared before `d` when that planning
fails, and the unresolved-dependency error of `d` otherwise.  The planner only
reads the repository, so the repository and its installed state are the same
after the call as before it. -/
theorem planInstallation_unresolved_dependency (r : Repository) (pv : PackageVersion)
    (installed : List PackageVersion) (avoid : List Package) (d : Dependency)
    (hd : d ∈ pv.dependencies)
    (hrepo : ∀ q ∈ r.packageVersions, q.satisfies d = false)
    (hinst : ∀ q ∈ installed, q.satisfies d = false) :
    (∃ e, (r.planInstallation pv installed avoid).outcome = .failed e) ∧
    (r.planInstallation pv installed avoid).outcome.errorString ≠ "" ∧
    (∀ pre post, pv.dependencies = pre ++ d :: post →
      ((∃ e, (r.planInstallation (pv.withDependencies pre) installed avoid).outcome
          = .failed e) ∨
        (∃ ops, (r.planInstallation (pv.withDependencies pre) installed avoid).outcome
          = .planned ops)) ∧
      (∀ e, (r.planInstallation (pv.withDependencies pre) installed avoid).outcome
          = .failed e →
        (r.planInstallation pv installed avoid).outcome = .failed e) ∧
      (∀ ops, (r.planInstallation (pv.withDependencies pre) installed avoid).outcome
          = .planned ops →
        (r.planInstallation pv installed avoid).outcome
          = .failed (.unresolvedDependency d))) ∧
    (r.planInstallation pv installed avoid).repository = r ∧
    (r.planInstallation pv installed avoid).repository.getInstalled = r.getInstalled := by
  have hunsat : satisfiedBy installed [] d = false :=
    satisfiedBy_false_of hrepo hinst (by simp)
  have hkind : ∀ pre post, pv.dependencies = pre ++ d :: post →
      ∀ ops, (r.planInstallation (pv.withDependencies pre) installed avoid).outcome
          = .planned ops →
        (r.planInstallation pv installed avoid).outcome
          = .failed (.unresolvedDependency d) := by
    intro pre post hdeps ops hb
    obtain ⟨mid, hmid, _⟩ := (planNode_withDependencies r installed avoid _ pv pre [] []).2 ops hb
    have ht := planDependencies_targets
      (fun q ops' res' hq ho' h' =>
        planNode_targets r installed avoid _ q _ ops' res' hq ho' h')
      pre [] mid (by simp) hmid
    have hmidunsat : satisfiedBy installed mid d = false := satisfiedBy_false_of hrepo hinst ht
    show planNode r installed avoid (r.packageVersions.length + 1) pv [] [] = _
    rw [planNode_split r installed avoid _ pv pre post d [] [] hdeps hunsat, hmid]
    simp [planDependencies, hmidunsat, findBestMatch_none_of hrepo]
  have hfail : ∃ e, (r.planInstallation pv installed avoid).outcome = .failed e := by
    obtain ⟨pre, post, hdeps⟩ := List.append_of_mem hd
    rcases planInstallation_before_cases r (pv.withDependencies pre) installed avoid with
      ⟨e, he⟩ | ⟨ops, hops⟩
    · exact ⟨e, planInstallation_prefix_failed r pv installed avoid pre post d hdeps hunsat e he⟩
    · exact ⟨_, hkind pre post hdeps ops hops⟩
  refine ⟨hfail, ?_, ?_, rfl, rfl⟩
  · obtain ⟨e, he⟩ := hfail
    rw [he]
    exact planError_message_ne_empty e
  · intro pre post hdeps
    exact ⟨planInstallation_before_cases r _ installed avoid,
      fun e he => planInstallation_prefix_failed r pv installed avoid pre post d hdeps hunsat e he,
      hkind pre post hdeps⟩

/-- Witness of C2 (amended): the test package version 1.0 of
`testPackageMissingRepo`, whose only dependency names a package the repository
does not hold, gets the unresolved-dependency error of that dependency. -/
theorem planInstallation_unresolved_dependency_witness :
    (testPackageMissingRepo.planInstallation testPackageMissingPV [] []).outcome
        = .failed (.unresolvedDependency nonExistingDependency) ∧
    (testPackageMissingRepo.planInstallation testPackageMissingPV [] []).outcome.errorString
        ≠ "" ∧
    (testPackageMissingRepo.planInstallation testPackageMissingPV [] []).repository.getInstalled
        = testPackageMissingRepo.getInstalled :=
  have h := planInstallation_unresolved_dependency testPackageMissingRepo testPackageMissingPV
    [] [] nonExistingDependency (by decide) (by decide) (by decide)
  ⟨(h.2.2.1 [] [] rfl).2.2 [⟨testPackageMissingPV.withDependencies [], .install⟩] (by decide),
   h.2.1, h.2.2.2.2⟩

/-- C2 as stated fails.  `selfThenMissingPV` is not installed and its
dependency on the missing package is matched by nothing in the repository or
the (empty) installed list, yet the error is the self-dependency error of its
first dependency; `avoidedThenMissingPV` in the same situation, with package X
to be avoided, gets the avoided-package error. -/
theorem planInstallation_unresolved_dependency_counterexample :
    (missingDependency ∈ selfThenMissingPV.dependencies ∧
      selfThenMissingPV.installed = false ∧
      (∀ q ∈ selfThenMissingRepo.packageVersions, q.satisfies missingDependency = false) ∧
      (selfThenMissingRepo.planInstallation selfThenMissingPV [] []).outcome
        = .failed (.selfDependency "org.example.A") ∧
      (selfThenMissingRepo.planInstallation selfThenMissingPV [] []).outcome.errorString
        = "packages cannot depend on themselves") ∧
    (missingDependency ∈ avoidedThenMissingPV.dependencies ∧
      avoidedThenMissingPV.installed = false ∧
      (∀ q ∈ avoidedThenMissingRepo.packageVersions, q.satisfies missingDependency = false) ∧
      (avoidedThenMissingRepo.planInstallation avoidedThenMissingPV [] [packageX]).outcome
        = .failed (.avoidedPackage "org.example.X")) := by
  decide

/-- C3: the command `unit-tests` where the first test repository cannot be
opened: `reinstallTestPackage` returns a non-empty error, `unitTests` returns
0 and `App::process` exits with code 0; the sibling command `find-updates`
exits with code 1 when its job reports an error. -/
theorem process_unit_tests_failure_exit_code :
    (reinstallTestPackage unitTestsFailingEnv.testDependsOnItself).result =
        some "Cannot open the repository file" ∧
    "Cannot open the repository file" ≠ "" ∧
    unitTests unitTestsFailingEnv.testDependsOnItself
        unitTestsFailingEnv.testPackageMissing = some 0 ∧
    process unitTestsFailingEnv = some 0 ∧
    process findUpdatesFailingEnv = some 1 := by
  decide

/-- C4: the operation list of a successful `planInstallation` is in
post-order: every operation is an `Install`, and for every dependency of its
target that no member of the installed set satisfies, an `Install` of a
package version satisfying the dependency stands at a strictly smaller
index. -/
theorem planInstallation_post_order (r : Repository) (target : PackageVersion)
    (installed : List PackageVersion) (avoid : List Package)
    (ops : List InstallOperation)
    (h : (r.planInstallation target installed avoid).outcome = .planned ops)
    (i : Nat) (hi : i < ops.length) :
    ops[i].kind = .install ∧
    ∀ d ∈ ops[i].target.dependencies, (∀ pv ∈ installed, pv.satisfies d = false) →
      ∃ j, ∃ hj : j < ops.length, j < i ∧ ops[j].kind = .install ∧
        ops[j].target.satisfies d = true := by
  have hpo := (planNode_postOrdered r installed avoid _ target [] [] ops
    (postOrdered_nil installed) h).1
  refine ⟨(hpo i hi).1, ?_⟩
  intro d hd hinst
  have hs := (hpo i hi).2 d hd
  simp only [satisfiedBy, Bool.or_eq_true, List.any_eq_true] at hs
  rcases hs with ⟨pv, hpv, hsat⟩ | ⟨op, hop, hsat⟩
  · rw [hinst pv hpv] at hsat; cases hsat
  · obtain ⟨j, hj, hget⟩ := List.getElem_of_mem hop
    have hj2 : j < i ∧ j < ops.length := by
      simp only [List.length_take] at hj; omega
    refine ⟨j, hj2.2, hj2.1, ?_, ?_⟩
    · exact (hpo j hj2.2).1
    · rw [List.getElem_take] at hget
      rw [hget]; exact hsat

/-- Witness of C4: the plan for `sampleApp` in `sampleRepo` is
`[Install Lib 1.5, Install App 2]`, and the library stands before the
application that needs it. -/
theorem planInstallation_post_order_witness :
    (sampleRepo.planInstallation sampleApp [] []).outcome = .planned sampleOps ∧
    (sampleOps[1].kind = .install ∧
      ∀ d ∈ sampleOps[1].target.dependencies,
        (∀ pv ∈ ([] : List PackageVersion), pv.satisfies d = false) →
        ∃ j, ∃ hj : j < sampleOps.length, j < 1 ∧ sampleOps[j].kind = .install ∧
          sampleOps[j].target.satisfies d = true) :=
  ⟨by decide,
   planInstallation_post_order sampleRepo sampleApp [] [] sampleOps (by decide) 1 (by decide)⟩

/-- C5: `Version.compare` is a total order on versions: `compare a b` is the
negation of `compare b a` and is one of -1, 0, 1; `≤` is transitive; two
normalised versions that compare equal are the same version; and `1.2`
compares equal to `1.2.0` because a missing trailing component counts as 0. -/
theorem version_compare_total_order (a b c : Version) :
    a.compare b = - b.compare a ∧
    (a.compare b = -1 ∨ a.compare b = 0 ∨ a.compare b = 1) ∧
    (a.compare b ≤ 0 → b.compare c ≤ 0 → a.compare c ≤ 0) ∧
    (a.isNormalized → b.isNormalized → a.compare b = 0 → a = b) ∧
    Version.compare ⟨[1, 2]⟩ ⟨[1, 2, 0]⟩ = 0 := by
  refine ⟨compareParts_antisymm _ _, compareParts_range _ _,
    compareParts_trans _ _ _, ?_, by decide⟩
  intro ha hb h
  have hs := compareParts_eq_zero _ _ h
  unfold Version.isNormalized Version.normalize at ha hb
  rw [← ha, ← hb, hs]

/-- Witness of C5 at `1.2`, `1.2.1`, `1.3` (transitivity) and at the two
normalised versions `1.2`, `1.2` (equality). -/
theorem version_compare_total_order_witness :
    (Version.compare ⟨[1, 2]⟩ ⟨[1, 2, 1]⟩ ≤ 0 ∧ Version.compare ⟨[1, 2, 1]⟩ ⟨[1, 3]⟩ ≤ 0 ∧
      Version.compare ⟨[1, 2]⟩ ⟨[1, 3]⟩ ≤ 0) ∧
    (Version.isNormalized ⟨[1, 2]⟩ ∧ Version.compare ⟨[1, 2]⟩ ⟨[1, 2]⟩ = 0 ∧
      (⟨[1, 2]⟩ : Version) = ⟨[1, 2]⟩) :=
  ⟨⟨by decide, by decide,
     (version_compare_total_order ⟨[1, 2]⟩ ⟨[1, 2, 1]⟩ ⟨[1, 3]⟩).2.2.1 (by decide) (by decide)⟩,
   ⟨by decide, by decide,
     (version_compare_total_order ⟨[1, 2]⟩ ⟨[1, 2]⟩ ⟨[1, 2]⟩).2.2.2.1
       (by decide) (by decide) (by decide)⟩⟩

/-- C6 (amended): for two package versions of the same package, or of packages
whose lower-cased titles differ, `packageVersionLessThan` holds exactly when
the pair (lower-cased package title, version) of the first is
lexicographically smaller than that of the second. -/
theorem packageVersionLessThan_iff (getPackageTitle : String → String)
    (pv1 pv2 : PackageVersion)
    (h : pv1.packageId = pv2.packageId ∨
      toLower (getPackageTitle pv1.packageId) ≠ toLower (getPackageTitle pv2.packageId)) :
    packageVersionLessThan getPackageTitle pv1 pv2 = true ↔
      titleVersionLess getPackageTitle pv1 pv2 := by
  by_cases hp : pv1.packageId = pv2.packageId
  · have hirr : ¬ (toLower (getPackageTitle pv2.packageId)).data <
        (toLower (getPackageTitle pv2.packageId)).data := lt_irrefl _
    simp [packageVersionLessThan, titleVersionLess, hp, hirr]
  · have ht : toLower (getPackageTitle pv1.packageId) ≠
        toLower (getPackageTitle pv2.packageId) := by
      rcases h with h | h
      · exact absurd h hp
      · exact h
    simp [packageVersionLessThan, titleVersionLess, hp, ht, qstringLess]

/-- Witness of C6 (amended): versions 1 and 2 of the package `org.a.Foo`. -/
theorem packageVersionLessThan_iff_witness :
    (fooA.packageId = fooA2.packageId ∨
      toLower (fooTitles fooA.packageId) ≠ toLower (fooTitles fooA2.packageId)) ∧
    (packageVersionLessThan fooTitles fooA fooA2 = true ↔
      titleVersionLess fooTitles fooA fooA2) :=
  ⟨Or.inl rfl, packageVersionLessThan_iff fooTitles fooA fooA2 (Or.inl rfl)⟩

/-- C6 as stated fails: `org.a.Foo` 1 and `org.b.Foo` 2 are of different
packages with the same lower-cased title "foo" and 1 < 2, so the pair of the
first is lexicographically smaller, yet `packageVersionLessThan` is false. -/
theorem packageVersionLessThan_same_title_counterexample :
    titleVersionLess fooTitles fooA fooB ∧
    packageVersionLessThan fooTitles fooA fooB = false ∧
    ¬ (packageVersionLessThan fooTitles fooA fooB = true ↔
        titleVersionLess fooTitles fooA fooB) := by
  decide

/-- C7: `reinstallTestPackage` returns the empty string exactly when the file
was opened, parsed and loaded without error, the test package version was
found, uninstalling it (if it was installed) reported no error, and
`planInstallation` returned a non-empty error; when all earlier steps went
well and `planInstallation` returned the empty error the result is
"Packages cannot depend on itself"; when an earlier step failed the result is
the message of that step and `planInstallation` is not called; and the
function returns a string in every case but the one in which the loaded
repository does not hold the test package version (null pointer). -/
theorem reinstallTestPackage_spec (env : TestEnv) :
    ((reinstallTestPackage env).result = some "" ↔
      env.openOk = true ∧ env.parseError = none ∧ env.loadError = "" ∧
      ∃ pv, env.found = some pv ∧ (pv.installed = true → pv.uninstallError = "") ∧
        pv.planError ≠ "") ∧
    (∀ pv, env.openOk = true → env.parseError = none → env.loadError = "" →
      env.found = some pv → (pv.installed = true → pv.uninstallError = "") →
      Call.planInstallation ∈ (reinstallTestPackage env).calls ∧
      (pv.planError = "" →
        (reinstallTestPackage env).result = some "Packages cannot depend on itself")) ∧
    (env.openOk = false →
      (reinstallTestPackage env).result = some "Cannot open the repository file" ∧
      Call.planInstallation ∉ (reinstallTestPackage env).calls) ∧
    (∀ e, env.openOk = true → env.parseError = some e →
      (reinstallTestPackage env).result = some (xmlParsingFailed e) ∧
      Call.planInstallation ∉ (reinstallTestPackage env).calls) ∧
    (env.openOk = true → env.parseError = none → env.loadError ≠ "" →
      (reinstallTestPackage env).result = some env.loadError ∧
      Call.planInstallation ∉ (reinstallTestPackage env).calls) ∧
    (∀ pv, env.openOk = true → env.parseError = none → env.loadError = "" →
      env.found = some pv → pv.installed = true → pv.uninstallError ≠ "" →
      (reinstallTestPackage env).result = some pv.uninstallError ∧
      Call.planInstallation ∉ (reinstallTestPackage env).calls) ∧
    ((reinstallTestPackage env).result = none ↔
      env.openOk = true ∧ env.parseError = none ∧ env.loadError = "" ∧
      env.found = none) := by
  obtain ⟨openOk, parseError, loadError, found⟩ := env
  have hx := xmlParsingFailed_ne_empty
  cases openOk
  · simp [reinstallTestPackage]
  · cases parseError with
    | some e => simp [reinstallTestPackage, hx e]
    | none =>
      by_cases hl : loadError = ""
      · cases found with
        | none => simp [reinstallTestPackage, hl]
        | some pv =>
          obtain ⟨inst, ue, pe⟩ := pv
          cases inst
          · by_cases hp : pe = "" <;> simp [reinstallTestPackage, hl, hp]
          · by_cases hu : ue = ""
            · by_cases hp : pe = "" <;> simp [reinstallTestPackage, hl, hp, hu]
            · simp [reinstallTestPackage, hl, hu]
      · simp [reinstallTestPackage, hl]

/-- Witness of C7: a run whose planning fails (the test passes), a run whose
planning succeeds, a run whose file cannot be opened and a run whose
uninstallation fails. -/
theorem reinstallTestPackage_spec_witness :
    (reinstallTestPackage planFailsEnv).result = some "" ∧
    (Call.planInstallation ∈ (reinstallTestPackage planSucceedsEnv).calls ∧
      (reinstallTestPackage planSucceedsEnv).result =
        some "Packages cannot depend on itself") ∧
    ((reinstallTestPackage unopenedFileEnv).result = some "Cannot open the repository file" ∧
      Call.planInstallation ∉ (reinstallTestPackage unopenedFileEnv).calls) ∧
    ((reinstallTestPackage uninstallFailsEnv).result = some "locked" ∧
      Call.planInstallation ∉ (reinstallTestPackage uninstallFailsEnv).calls) :=
  ⟨(reinstallTestPackage_spec planFailsEnv).1.2
      ⟨rfl, rfl, rfl, _, rfl, by decide, by decide⟩,
   ⟨((reinstallTestPackage_spec planSucceedsEnv).2.1 _ rfl rfl rfl rfl (by decide)).1,
    ((reinstallTestPackage_spec planSucceedsEnv).2.1 _ rfl rfl rfl rfl (by decide)).2 rfl⟩,
   (reinstallTestPackage_spec unopenedFileEnv).2.2.1 rfl,
   (reinstallTestPackage_spec uninstallFailsEnv).2.2.2.2.2.1 _ rfl rfl rfl rfl rfl
      (by decide)⟩

/-- C8: `App::process` returns 1 when command-line parsing reports an error,
when there is no free argument, when there is more than one, and when the
single free argument is none of "help", "unit-tests", "find-updates"; it
returns 0 for "help"; for "unit-tests" and "find-updates" it returns the
result of `unitTests` and of `findUpdates`; every exit code it returns is 0 or
1, and it returns one unless `unitTests` is run and does not return. -/
theorem process_dispatch (env : ProcessEnv) :
    (env.parseError ≠ "" → process env = some 1) ∧
    (env.parseError = "" → env.freeArguments = [] → process env = some 1) ∧
    (env.parseError = "" → 1 < env.freeArguments.length → process env = some 1) ∧
    (∀ cmd, env.parseError = "" → env.freeArguments = [cmd] →
      cmd ≠ "help" → cmd ≠ "unit-tests" → cmd ≠ "find-updates" → process env = some 1) ∧
    (env.parseError = "" → env.freeArguments = ["help"] → process env = some 0) ∧
    (env.parseError = "" → env.freeArguments = ["unit-tests"] →
      process env = unitTests env.testDependsOnItself env.testPackageMissing) ∧
    (env.parseError = "" → env.freeArguments = ["find-updates"] →
      process env = some (findUpdates env.findUpdatesError)) ∧
    (∀ r, process env = some r → r = 0 ∨ r = 1) ∧
    (process env = none ↔
      env.parseError = "" ∧ env.freeArguments = ["unit-tests"] ∧
      unitTests env.testDependsOnItself env.testPackageMissing = none) := by
  obtain ⟨parseError, fr, t1, t2, fe⟩ := env
  refine ⟨?_, ?_, ?_, ?_, ?_, ?_, ?_, ?_, ?_⟩
  · intro h; simp [process, h]
  · intro h hfr; simp only at h hfr; simp [process, h, hfr]
  · intro h hfr; simp only at h hfr
    simp only [process, h]
    have h0 : fr.length ≠ 0 := by omega
    simp [h0, hfr]
  · intro cmd h hfr h1 h2 h3; simp only at h hfr; simp [process, h, hfr, h1, h2, h3]
  · intro h hfr; simp only at h hfr; simp [process, h, hfr]
  · intro h hfr; simp only at h hfr; simp [process, h, hfr]
  · intro h hfr; simp only at h hfr; simp [process, h, hfr]
  · intro r hr
    simp only [process] at hr
    have hu := unitTests_eq t1 t2
    have hf := findUpdates_range fe
    split_ifs at hr <;> simp_all
  · simp only [process]
    by_cases hp : parseError = ""
    · rcases fr with _ | ⟨cmd, _ | ⟨c2, rest⟩⟩
      · simp [hp]
      · by_cases h1 : cmd = "help"
        · simp [hp, h1]
        · by_cases h2 : cmd = "unit-tests"
          · simp [hp, h2]
          · by_cases h3 : cmd = "find-updates" <;> simp [hp, h1, h2, h3]
      · simp [hp]
    · simp [hp]

/-- Witness of C8: `nd unit-tests`, and `nd find-updates` with a failing job,
whose exit code 1 is one of 0 and 1. -/
theorem process_dispatch_witness :
    process unitTestsFailingEnv =
        unitTests unitTestsFailingEnv.testDependsOnItself
          unitTestsFailingEnv.testPackageMissing ∧
    process findUpdatesFailingEnv = some (findUpdates findUpdatesFailingEnv.findUpdatesError) ∧
    process findUpdatesFailingEnv = some 1 ∧ ((1 : Int) = 0 ∨ (1 : Int) = 1) :=
  ⟨(process_dispatch unitTestsFailingEnv).2.2.2.2.2.1 rfl rfl,
   (process_dispatch findUpdatesFailingEnv).2.2.2.2.2.2.1 rfl rfl,
   by decide,
   (process_dispatch findUpdatesFailingEnv).2.2.2.2.2.2.2.1 1 (by decide)⟩

end Npackd
